import Mathlib

/-!
Verification development for the SermonPreprocessorAPI repository.

The ingestion pipeline (`background_scraper.py`), the initial-scraper
schema (`InitialScraper/sermon_scraper.py`) and the HTTP API (`app.py`)
are shallowly embedded as executable Lean functions.  Nondeterministic
effects (network transfers, `os.remove` outcomes, `uuid.uuid4`,
`time.strftime`) are supplied by an explicit environment record; the
SQLite table is a list of records whose insert operation enforces the
schema's UNIQUE constraints on `audio_url` and `file_path`.
-/

namespace Sermon

/-! ## URL and path derivation

`os.path.basename(urlparse(audio_url).path)` joined onto `AUDIO_DIR`,
mirrored at character-list level so that the kernel can evaluate it.
-/

/-- The remainder of a character list after the first occurrence of the
pattern `pat`, or `none` when `pat` does not occur. -/
def dropThroughSub (pat : List Char) : List Char → Option (List Char)
  | [] => if pat = [] then some [] else none
  | c :: cs =>
    if pat.isPrefixOf (c :: cs) then some ((c :: cs).drop pat.length)
    else dropThroughSub pat cs

/-- The `path` component of `urllib.parse.urlparse` for the URLs this
program handles: the fragment (after the first "#") and the query string
(after the first "?") are stripped; when a "://" occurs, the scheme and
the network location (up to the next "/") are removed. -/
def urlparsePath (url : String) : String :=
  let noFrag := url.data.takeWhile (fun c => c ≠ '#')
  let noQuery := noFrag.takeWhile (fun c => c ≠ '?')
  match dropThroughSub [':', '/', '/'] noQuery with
  | none => ⟨noQuery⟩
  | some rest => ⟨rest.dropWhile (fun c => c ≠ '/')⟩

/-- `os.path.basename`: the part of the path after the last "/". -/
def osBasename (p : String) : String :=
  ⟨(p.data.reverse.takeWhile (fun c => c ≠ '/')).reverse⟩

/-- `AUDIO_DIR` default from the scraper configuration. -/
def AUDIO_DIR : String := "/data/audiofiles"

/-- `os.path.join(AUDIO_DIR, os.path.basename(urlparse(audio_url).path))`:
the derived local file path for a sermon audio URL (query ignored). -/
def normalizedFilePath (audio_url : String) : String :=
  AUDIO_DIR ++ "/" ++ osBasename (urlparsePath audio_url)

/-! ## Data model -/

/-- One row of the `sermons` table (schema in
`InitialScraper/sermon_scraper.py`, `initialize_database`). -/
structure SermonRecord where
  id : String
  title : String
  audio_url : String
  file_path : String
  categories : String
  fetched_date : String
deriving DecidableEq, Repr

/-- The `sermons` table contents. -/
abbrev Store := List SermonRecord

/-- The set of paths present in the audio directory, as a list. -/
abbrev Disk := List String

/-- `os.remove p`: afterwards no file exists at `p`. -/
def removePath (p : String) (d : Disk) : Disk :=
  d.filter (fun q => q ≠ p)

/-- A candidate extracted from the podcast feed: the tuple
`(title, audio_url, categories)` of `fetch_podcast_feed`. -/
structure Candidate where
  title : String
  audio_url : String
  categories : String
deriving DecidableEq, Repr

/-- Outcome of the network transfer inside `download_audio`:
`success` (HTTP 200 and the whole stream written), `failClean` (non-200
status, or an error before the destination file is created), or
`failMidStream` (error after the 200 response while streaming chunks,
which leaves the partially written file behind). -/
inductive DOutcome where
  | success
  | failClean
  | failMidStream
deriving DecidableEq, Repr

/-- Environment of one ingestion pass: the nondeterministic effects the
code reads (network, `os.remove` success, non-constraint insert errors,
`uuid.uuid4()`, `time.strftime`). -/
structure Env where
  download : Candidate → DOutcome
  rmOk : String → Bool
  insertErr : Candidate → Bool
  mkId : Candidate → String
  timestamp : Candidate → String

/-- What happened to one candidate in the `process_sermons` loop. -/
inductive Event where
  | dupSkip
  | rmFailSkip
  | downloadFailSkip
  | inserted
  | insertDupRolledBack
  | insertErrRolledBack
deriving DecidableEq, Repr

/-- `download_audio(audio_url)` (background_scraper.py lines 34-56):
returns `(result, disk afterwards, whether a transfer was attempted)`.
If the derived path already exists the transfer is skipped and the path
returned; otherwise the file is streamed to disk — a mid-stream error
returns failure but leaves the partially written file on disk. -/
def download_audio (env : Env) (d : Disk) (c : Candidate) :
    Option String × Disk × Bool :=
  let p := normalizedFilePath c.audio_url
  if p ∈ d then (some p, d, false)
  else
    match env.download c with
    | .success => (some p, p :: d, true)
    | .failClean => (none, d, true)
    | .failMidStream => (none, p :: d, true)

/-- The three `SELECT COUNT(*)` duplicate checks of `process_sermons`
(lines 134-145), combined with Python's `or` on the counts. -/
def dup_check (s : Store) (c : Candidate) : Bool :=
  let exists_by_url := s.countP (fun r => r.audio_url == c.audio_url)
  let exists_by_path :=
    s.countP (fun r => r.file_path == normalizedFilePath c.audio_url)
  let exists_by_title := s.countP (fun r => r.title == c.title)
  exists_by_url != 0 || exists_by_path != 0 || exists_by_title != 0

/-- The row built for the INSERT at lines 182-185. -/
def mkRecord (env : Env) (c : Candidate) (path : String) : SermonRecord :=
  { id := env.mkId c
    title := c.title
    audio_url := c.audio_url
    file_path := path
    categories := c.categories
    fetched_date := env.timestamp c }

/-- The INSERT with its exception handlers (lines 181-198): a UNIQUE
constraint violation on `audio_url` or `file_path` rolls back and is a
benign duplicate; any other insert failure (`err`) rolls back and is an
error; otherwise the row is appended and committed. -/
def insert_sermon (s : Store) (r : SermonRecord) (err : Bool) :
    Store × Event :=
  if s.any (fun q => q.audio_url == r.audio_url || q.file_path == r.file_path) then
    (s, .insertDupRolledBack)
  else if err then (s, .insertErrRolledBack)
  else (s ++ [r], .inserted)

/-- Result of processing one candidate. -/
structure StepOut where
  store : Store
  disk : Disk
  event : Event
  transfer : Bool
deriving DecidableEq, Repr

/-- Download-then-insert tail of the loop body (lines 164-198).  The
path reconciliation at lines 173-176 substitutes the downloaded path for
the normalized one; both are `normalizedFilePath c.audio_url` here. -/
def downloadAndInsert (env : Env) (s : Store) (d : Disk) (c : Candidate) :
    StepOut :=
  match download_audio env d c with
  | (none, d2, t) => ⟨s, d2, .downloadFailSkip, t⟩
  | (some path, d2, t) =>
    let r := mkRecord env c path
    let (s2, e) := insert_sermon s r (env.insertErr c)
    ⟨s2, d2, e, t⟩

/-- One iteration of the `process_sermons` loop (lines 123-200):
duplicate check, disk/metadata drift check (delete a file on disk that
no record references, skipping the candidate when the delete fails),
download, insert. -/
def stepCandidate (env : Env) (s : Store) (d : Disk) (c : Candidate) :
    StepOut :=
  if dup_check s c then ⟨s, d, .dupSkip, false⟩
  else if normalizedFilePath c.audio_url ∈ d then
    if env.rmOk (normalizedFilePath c.audio_url) then
      downloadAndInsert env s (removePath (normalizedFilePath c.audio_url) d) c
    else ⟨s, d, .rmFailSkip, false⟩
  else downloadAndInsert env s d c

/-- Result of one ingestion pass. -/
structure PassOut where
  store : Store
  disk : Disk
  events : List Event
  transfers : Nat
deriving DecidableEq, Repr

/-- The `process_sermons` loop over a candidate list: one `stepCandidate`
per candidate, strictly in order, never aborting the pass. -/
def processList (env : Env) : List Candidate → Store → Disk → PassOut
  | [], s, d => ⟨s, d, [], 0⟩
  | c :: cs, s, d =>
    let st := stepCandidate env s d c
    let r := processList env cs st.store st.disk
    ⟨r.store, r.disk, st.event :: r.events, (if st.transfer then 1 else 0) + r.transfers⟩

/-! ## Feed extraction (`fetch_podcast_feed`, lines 58-106) -/

/-- One `item` element of the podcast feed as the scraper reads it:
the `title` element's text when the element is present, the `url`
attribute of the audio `enclosure` when present, and the texts of the
`category` elements (an empty element has no text). -/
structure FeedItem where
  titleText : Option String
  enclosureAudioUrl : Option String
  categoryElems : List (Option String)
deriving DecidableEq, Repr

/-- Python's `", ".join`. -/
def joinComma : List String → String
  | [] => ""
  | [x] => x
  | x :: xs => x ++ ", " ++ joinComma xs

/-- Candidate extraction from one feed item (lines 84-99): a missing
title element becomes the placeholder "Unknown Sermon", categories are
the comma-joined nonempty category texts (or "Uncategorized" when no
category element exists), and an item without an audio enclosure is
dropped. -/
def extractCandidate (it : FeedItem) : Option Candidate :=
  let title := it.titleText.getD "Unknown Sermon"
  let categories :=
    if it.categoryElems.isEmpty then "Uncategorized"
    else joinComma (it.categoryElems.filterMap
      (fun o => match o with
        | some t => if t = "" then none else some t
        | none => none))
  match it.enclosureAudioUrl with
  | none => none
  | some u => some ⟨title, u, categories⟩

/-- `process_sermons` applied to a parsed feed. -/
def process_sermons (env : Env) (items : List FeedItem) (s : Store) (d : Disk) :
    PassOut :=
  processList env (items.filterMap extractCandidate) s d

/-! ## Chunk-level model of the download (`download_audio`, lines 44-56)

For the partial-file question the transfer must be modelled below the
level of `DOutcome`: the HTTP response carries a status and a chunk
stream that may raise partway through.  The filesystem here maps paths
to file contents. -/

/-- The HTTP interaction of one `requests.get(audio_url, stream=True)`:
either the request itself raises, or it yields a status code together
with the chunk sequence `iter_content` delivers; `complete = false`
means the iterator raises a transport error after those chunks. -/
inductive FetchResponse where
  | netError
  | resp (status : Nat) (chunks : List String) (complete : Bool)
deriving DecidableEq, Repr

/-- Filesystem as path-content pairs. -/
abbrev FileSys := List (String × String)

/-- Python's `"".join` of the delivered chunks. -/
def joinChunks : List String → String
  | [] => ""
  | x :: xs => x ++ joinChunks xs

/-- `download_audio` at chunk level (lines 44-56): the existing-file
shortcut, then `requests.get`; on status 200 the destination file is
created by `open(file_path, "wb")` and the delivered chunks are written
in order; an exception is answered by `return None` with no cleanup, so
a transport error during streaming leaves the partially written file at
the destination path. -/
def fetch_to_path (fs : FileSys) (audio_url : String) (r : FetchResponse) :
    Option String × FileSys :=
  let p := normalizedFilePath audio_url
  if fs.any (fun e => e.1 == p) then (some p, fs)
  else
    match r with
    | .netError => (none, fs)
    | .resp status chunks complete =>
      if status == 200 then
        if complete then (some p, (p, joinChunks chunks) :: fs)
        else (none, (p, joinChunks chunks) :: fs)
      else (none, fs)

/-! ## HTTP API (`app.py`) -/

/-- An HTTP Basic credential as Flask's `request.authorization`. -/
structure AuthCred where
  username : String
  password : String
deriving DecidableEq, Repr

/-- `require_api_key` (app.py lines 27-36): the request passes iff a
credential is present and its password equals the configured key. -/
def require_api_key (apiKey : String) (auth : Option AuthCred) : Bool :=
  match auth with
  | none => false
  | some a => a.password == apiKey

/-- Byte-order (SQLite BINARY collation) comparison of strings;
UTF-8 byte order coincides with code-point order. -/
def charListLe : List Char → List Char → Bool
  | [], _ => true
  | _ :: _, [] => false
  | a :: as, b :: bs =>
    if a < b then true
    else if b < a then false
    else charListLe as bs

/-- `x <= y` as SQLite compares TEXT values. -/
def strLe (x y : String) : Bool := charListLe x.data y.data

/-- The characters Python's `str.isspace` answers true for — the exact
set `str.strip()` removes (U+0009-U+000D, U+001C-U+001F, space, NEL,
NBSP, and the Unicode space separators). -/
def pyIsSpace (c : Char) : Bool :=
  c.toNat ∈ ([9, 10, 11, 12, 13, 0x1c, 0x1d, 0x1e, 0x1f, 32, 0x85, 0xa0,
    0x1680, 0x2000, 0x2001, 0x2002, 0x2003, 0x2004, 0x2005, 0x2006, 0x2007,
    0x2008, 0x2009, 0x200a, 0x2028, 0x2029, 0x202f, 0x205f, 0x3000] : List Nat)

/-- `str.strip()`. -/
def pyStrip (s : String) : String :=
  ⟨((s.data.dropWhile pyIsSpace).reverse.dropWhile pyIsSpace).reverse⟩

/-- Numeric value of a digit string. -/
def digitsToNat (cs : List Char) : Nat :=
  cs.foldl (fun n c => n * 10 + (c.toNat - '0'.toNat)) 0

/-- Gregorian leap year, as `datetime` validates the day of month. -/
def isLeapYear (y : Nat) : Bool :=
  y % 4 == 0 && (y % 100 != 0 || y % 400 == 0)

/-- Days in a month, as the `datetime` constructor validates dates. -/
def daysInMonth (y m : Nat) : Nat :=
  if m = 2 then (if isLeapYear y then 29 else 28)
  else if m = 4 || m = 6 || m = 9 || m = 11 then 30
  else 31

/-- A parsed `%Y-%m-%d` date. -/
structure PyDate where
  year : Nat
  month : Nat
  day : Nat
deriving DecidableEq, Repr

/-- The `%Y` group of `_strptime`: exactly four digits. -/
def matchYear : List Char → Bool
  | [a, b, c, d] => a.isDigit && b.isDigit && c.isDigit && d.isDigit
  | _ => false

/-- The `%m` group of `_strptime`, the regex `1[0-2]|0[1-9]|[1-9]`:
one or two digits, value 1-12, "00" excluded. -/
def matchMonth : List Char → Bool
  | [a] => decide ('1' ≤ a ∧ a ≤ '9')
  | [a, b] => decide ((a = '0' ∧ '1' ≤ b ∧ b ≤ '9') ∨ (a = '1' ∧ '0' ≤ b ∧ b ≤ '2'))
  | _ => false

/-- The `%d` group of `_strptime`, the regex `3[01]|[12]\x5cd|0[1-9]|[1-9]`:
one or two digits, value 1-31, "00" excluded. -/
def matchDay : List Char → Bool
  | [a] => decide ('1' ≤ a ∧ a ≤ '9')
  | [a, b] => decide ((a = '3' ∧ (b = '0' ∨ b = '1')) ∨
      ((a = '1' ∨ a = '2') ∧ b.isDigit = true) ∨ (a = '0' ∧ '1' ≤ b ∧ b ≤ '9'))
  | _ => false

/-- `datetime.strptime(s, "%Y-%m-%d")`: the anchored, fully consuming
regex match (hence exactly two "-" separators, each group matching its
whole part), then the `datetime` constructor's checks: `MINYEAR = 1`
(year 0 raises) and the day bounded by the month's length.  Digits are
modelled as ASCII: CPython's `\x5cd` in the year group (and in the second
day digit) also accepts other Unicode decimal digits, which no finite
enumeration captures; all behaviour below is for ASCII date strings. -/
def strptimeYMD (s : String) : Option PyDate :=
  match s.data.splitOn '-' with
  | [y, m, d] =>
    if matchYear y && matchMonth m && matchDay d then
      let yv := digitsToNat y
      let mv := digitsToNat m
      let dv := digitsToNat d
      if 1 ≤ yv && dv ≤ daysInMonth yv mv then some ⟨yv, mv, dv⟩ else none
    else none
  | _ => none

/-- Two-digit zero-padded decimal, as `strftime` renders `%m` and `%d`. -/
def pad2 (n : Nat) : String :=
  if n < 10 then "0" ++ toString n else toString n

/-- `dt.strftime("%Y-%m-%d")` as the platform renders it: month and day
zero-padded to two digits, the year printed unpadded (`datetime(42,1,5)`
formats to "42-01-05"). -/
def strftimeYMD (dt : PyDate) : String :=
  toString dt.year ++ "-" ++ pad2 dt.month ++ "-" ++ pad2 dt.day

/-- One element of the JSON array `/sermons` returns (app.py lines
73-80): the record's fields without `file_path`, plus the computed
`download_url`. -/
structure SermonOut where
  id : String
  title : String
  audio_url : String
  categories : String
  fetched_date : String
  download_url : String
deriving DecidableEq, Repr

/-- Body of an API response: an `error` JSON object, a JSON list of
sermons, or a file attachment served from a directory. -/
inductive ApiBody where
  | errorMsg (msg : String)
  | sermonList (xs : List SermonOut)
  | fileAttachment (dir file : String)
deriving DecidableEq, Repr

/-- An HTTP response of the API. -/
structure HttpResponse where
  status : Nat
  body : ApiBody
deriving DecidableEq, Repr

/-- `request.host_url.rstrip('/')`. -/
def rstripSlash (s : String) : String :=
  ⟨(s.data.reverse.dropWhile (fun c => c = '/')).reverse⟩

/-- The `sermon_data` dictionary built per row (lines 73-80). -/
def sermonOut (host : String) (r : SermonRecord) : SermonOut :=
  { id := r.id
    title := r.title
    audio_url := r.audio_url
    categories := r.categories
    fetched_date := r.fetched_date
    download_url := rstripSlash host ++ "/download/" ++ r.id }

/-- Insertion into a list kept descending by `fetched_date`. -/
def insertByDateDesc (r : SermonRecord) : List SermonRecord → List SermonRecord
  | [] => [r]
  | x :: xs =>
    if strLe x.fetched_date r.fetched_date then r :: x :: xs
    else x :: insertByDateDesc r xs

/-- `ORDER BY fetched_date DESC` as an insertion sort. -/
def orderByDateDesc : List SermonRecord → List SermonRecord
  | [] => []
  | x :: xs => insertByDateDesc x (orderByDateDesc xs)

/-- `SELECT * FROM sermons WHERE fetched_date >= ? ORDER BY fetched_date
DESC` against the table contents. -/
def sqlSermonsSince (s : Store) (query_date : String) : List SermonRecord :=
  orderByDateDesc (s.filter (fun r => strLe query_date r.fetched_date))

/-- `get_sermons` (app.py lines 38-87).  `request.args.get("date")` is
`None` when absent; `if not date_param` is also true of the empty
string, so both take the missing-parameter 400.  `dbErr` is the message
of an exception raised inside the `try` block (connection or query
failure); `none` means the store answers normally. -/
def get_sermons (apiKey : String) (auth : Option AuthCred)
    (dateParam : Option String) (s : Store) (dbErr : Option String)
    (host : String) : HttpResponse :=
  if !require_api_key apiKey auth then
    ⟨401, .errorMsg "Unauthorized: Invalid API key."⟩
  else
    match dateParam with
    | none => ⟨400, .errorMsg "Missing date parameter. Expected format: YYYY-MM-DD"⟩
    | some dp =>
      if dp = "" then
        ⟨400, .errorMsg "Missing date parameter. Expected format: YYYY-MM-DD"⟩
      else
        match strptimeYMD (pyStrip dp) with
        | none => ⟨400, .errorMsg "Invalid date format. Expected format: YYYY-MM-DD"⟩
        | some dt =>
          match dbErr with
          | some msg => ⟨500, .errorMsg msg⟩
          | none =>
            let query_date := strftimeYMD dt ++ " 00:00:00"
            ⟨200, .sermonList ((sqlSermonsSince s query_date).map (sermonOut host))⟩

/-- `os.path.dirname`. -/
def osDirname (p : String) : String :=
  let head := (p.data.reverse.dropWhile (fun c => c ≠ '/')).reverse
  if head.all (fun c => c = '/') then ⟨head⟩
  else ⟨(head.reverse.dropWhile (fun c => c = '/')).reverse⟩

/-- `download_sermon_audio` (app.py lines 89-116). -/
def download_sermon_audio (apiKey : String) (auth : Option AuthCred)
    (s : Store) (dbErr : Option String) (sermon_id : String) : HttpResponse :=
  if !require_api_key apiKey auth then
    ⟨401, .errorMsg "Unauthorized: Invalid API key."⟩
  else
    match dbErr with
    | some msg => ⟨500, .errorMsg msg⟩
    | none =>
      match s.find? (fun r => r.id == sermon_id) with
      | none => ⟨404, .errorMsg "Sermon not found"⟩
      | some r =>
        ⟨200, .fileAttachment (osDirname r.file_path) (osBasename r.file_path)⟩

/-! ## General lemmas about the embedded operations -/

theorem dup_check_iff (s : Store) (c : Candidate) :
    dup_check s c = true ↔
      (∃ r ∈ s, r.audio_url = c.audio_url) ∨
      (∃ r ∈ s, r.file_path = normalizedFilePath c.audio_url) ∨
      (∃ r ∈ s, r.title = c.title) := by
  rw [or_assoc.symm]
  simp [dup_check, ← List.countP_pos_iff, Nat.pos_iff_ne_zero, or_assoc]

theorem not_dup_no_conflict (s : Store) (c : Candidate)
    (h : dup_check s c = false) :
    s.any (fun q => q.audio_url == c.audio_url ||
      q.file_path == normalizedFilePath c.audio_url) = false := by
  rw [Bool.eq_false_iff] at h
  rw [List.any_eq_false]
  intro q hq
  simp only [Bool.or_eq_true, beq_iff_eq, not_or]
  constructor
  · intro hurl
    exact h ((dup_check_iff s c).mpr (Or.inl ⟨q, hq, hurl⟩))
  · intro hpath
    exact h ((dup_check_iff s c).mpr (Or.inr (Or.inl ⟨q, hq, hpath⟩)))

theorem mem_removePath {q p : String} {d : Disk} :
    q ∈ removePath p d ↔ q ∈ d ∧ q ≠ p := by
  simp [removePath]

theorem removePath_not_mem (p : String) (d : Disk) : p ∉ removePath p d := by
  simp [mem_removePath]

theorem removePath_of_not_mem {p : String} {d : Disk} (h : p ∉ d) :
    removePath p d = d := by
  rw [removePath, List.filter_eq_self]
  intro q hq
  simp only [decide_eq_true_eq]
  intro hqp
  exact h (hqp ▸ hq)

theorem stepCandidate_of_dup {env : Env} {s : Store} {d : Disk} {c : Candidate}
    (h : dup_check s c = true) :
    stepCandidate env s d c = ⟨s, d, .dupSkip, false⟩ := by
  simp [stepCandidate, h]

/-! ## Fixtures used by the witness statements -/

/-- A benign environment: every transfer succeeds, every delete
succeeds, no insert error, deterministic ids and timestamp. -/
def envW : Env :=
  { download := fun _ => .success
    rmOk := fun _ => true
    insertErr := fun _ => false
    mkId := fun c => "id-" ++ c.title
    timestamp := fun _ => "2025-03-01 10:00:00" }

def recW : SermonRecord :=
  { id := "w0"
    title := "Sermon A"
    audio_url := "http://old.example/files/old.mp3"
    file_path := "/data/audiofiles/old.mp3"
    categories := "Faith"
    fetched_date := "2025-01-01 09:00:00" }

/-- Same title as `recW`, different URL and different derived path. -/
def candTitleClash : Candidate :=
  ⟨"Sermon A", "http://new.example/files/new.mp3", "Faith"⟩

/-! ## C1 — dedup OR-semantics -/

/-- C1: the duplicate check answers true exactly when the candidate's
`audio_url`, derived file path, or `title` matches some stored record;
and a candidate matching only by title is skipped as a duplicate with
no download and no new record. -/
theorem c1_dedup_or_semantics (env : Env) (s : Store) (d : Disk) (c : Candidate) :
    (dup_check s c = true ↔
      (∃ r ∈ s, r.audio_url = c.audio_url) ∨
      (∃ r ∈ s, r.file_path = normalizedFilePath c.audio_url) ∨
      (∃ r ∈ s, r.title = c.title)) ∧
    ((∃ r ∈ s, r.title = c.title) →
      (∀ r ∈ s, r.audio_url ≠ c.audio_url) →
      (∀ r ∈ s, r.file_path ≠ normalizedFilePath c.audio_url) →
      stepCandidate env s d c = ⟨s, d, .dupSkip, false⟩) := by
  refine ⟨dup_check_iff s c, fun ht _ _ => ?_⟩
  exact stepCandidate_of_dup ((dup_check_iff s c).mpr (Or.inr (Or.inr ht)))

/-- Witness for C1 at a concrete store and candidate that agree only on
the title. -/
theorem c1_witness :
    stepCandidate envW [recW] [] candTitleClash = ⟨[recW], [], .dupSkip, false⟩ :=
  (c1_dedup_or_semantics envW [recW] [] candTitleClash).2
    (by decide) (by decide) (by decide)

/-! ## C10 — placeholder title and title-based dedup -/

/-- C10: once some stored record is titled "Unknown Sermon", any feed
item without a title element (and with an audio enclosure) yields the
placeholder-titled candidate, which is classified duplicate and is
neither downloaded nor inserted, whatever its URL or derived path. -/
theorem c10_unknown_sermon_dedup (env : Env) (s : Store) (d : Disk)
    (it : FeedItem) (r : SermonRecord) (hr : r ∈ s)
    (hrt : r.title = "Unknown Sermon") (ht : it.titleText = none)
    (u : String) (hu : it.enclosureAudioUrl = some u) :
    ∃ c : Candidate, extractCandidate it = some c ∧
      c.title = "Unknown Sermon" ∧ c.audio_url = u ∧
      stepCandidate env s d c = ⟨s, d, .dupSkip, false⟩ := by
  refine ⟨⟨"Unknown Sermon", u,
    if it.categoryElems.isEmpty then "Uncategorized"
    else joinComma (it.categoryElems.filterMap
      (fun o => match o with
        | some t => if t = "" then none else some t
        | none => none))⟩, ?_, rfl, rfl, ?_⟩
  · simp [extractCandidate, ht, hu]
  · exact stepCandidate_of_dup
      ((dup_check_iff s _).mpr (Or.inr (Or.inr ⟨r, hr, hrt⟩)))

/-- Witness for C10: a concrete store holding an "Unknown Sermon" row
and a concrete title-less feed item. -/
theorem c10_witness :
    ∃ c : Candidate,
      extractCandidate ⟨none, some "http://new.example/files/ep77.mp3", []⟩ = some c ∧
      c.title = "Unknown Sermon" ∧ c.audio_url = "http://new.example/files/ep77.mp3" ∧
      stepCandidate envW [{ recW with title := "Unknown Sermon" }] []
        c = ⟨[{ recW with title := "Unknown Sermon" }], [], .dupSkip, false⟩ :=
  c10_unknown_sermon_dedup envW [{ recW with title := "Unknown Sermon" }] []
    ⟨none, some "http://new.example/files/ep77.mp3", []⟩
    { recW with title := "Unknown Sermon" } (by decide) (by decide) rfl
    "http://new.example/files/ep77.mp3" rfl

/-! ## C5 — rollback behaviour of the insert -/

/-- C5: an insert hitting the uniqueness constraint leaves the store
unchanged and is recorded as a benign duplicate; any other insert
failure also leaves the store unchanged and is recorded as an error;
and the pass always continues with the remaining candidates after a
candidate's step, whatever its outcome. -/
theorem c5_insert_rollback (s : Store) (r : SermonRecord) (err : Bool) :
    ((∃ q ∈ s, q.audio_url = r.audio_url ∨ q.file_path = r.file_path) →
      insert_sermon s r err = (s, .insertDupRolledBack)) ∧
    ((∀ q ∈ s, q.audio_url ≠ r.audio_url ∧ q.file_path ≠ r.file_path) →
      err = true → insert_sermon s r err = (s, .insertErrRolledBack)) ∧
    (∀ (env : Env) (c : Candidate) (cs : List Candidate) (d : Disk),
      processList env (c :: cs) s d =
        ⟨(processList env cs (stepCandidate env s d c).store
            (stepCandidate env s d c).disk).store,
         (processList env cs (stepCandidate env s d c).store
            (stepCandidate env s d c).disk).disk,
         (stepCandidate env s d c).event ::
           (processList env cs (stepCandidate env s d c).store
              (stepCandidate env s d c).disk).events,
         (if (stepCandidate env s d c).transfer then 1 else 0) +
           (processList env cs (stepCandidate env s d c).store
              (stepCandidate env s d c).disk).transfers⟩) := by
  refine ⟨fun ⟨q, hq, hmatch⟩ => ?_, fun hall herr => ?_, fun env c cs d => rfl⟩
  · have : s.any (fun q => q.audio_url == r.audio_url || q.file_path == r.file_path) = true := by
      rw [List.any_eq_true]
      exact ⟨q, hq, by simpa using hmatch⟩
    simp [insert_sermon, this]
  · have : s.any (fun q => q.audio_url == r.audio_url || q.file_path == r.file_path) = false := by
      rw [List.any_eq_false]
      intro q hq
      simpa using hall q hq
    simp [insert_sermon, this, herr]

/-- Witness for C5: insert of a row clashing on `audio_url` with a
stored one rolls back as a benign duplicate. -/
theorem c5_witness :
    insert_sermon [recW] { recW with id := "w1", title := "Other Title" } false =
      ([recW], .insertDupRolledBack) :=
  (c5_insert_rollback [recW] { recW with id := "w1", title := "Other Title" } false).1
    ⟨recW, by decide, Or.inl rfl⟩

/-! ## C6 — disk/metadata drift reconciliation -/

/-- C6: a non-duplicate candidate whose derived path exists on disk has
that file deleted and freshly re-downloaded (a real transfer, not the
exists-shortcut) before its record is inserted; when the delete fails
the candidate is skipped with no insert. -/
theorem c6_drift_reconciliation (env : Env) (s : Store) (d : Disk)
    (c : Candidate) (hdup : dup_check s c = false)
    (hmem : normalizedFilePath c.audio_url ∈ d) :
    (env.rmOk (normalizedFilePath c.audio_url) = true →
      env.download c = .success → env.insertErr c = false →
      stepCandidate env s d c =
        ⟨s ++ [mkRecord env c (normalizedFilePath c.audio_url)],
         normalizedFilePath c.audio_url ::
           removePath (normalizedFilePath c.audio_url) d,
         .inserted, true⟩) ∧
    (env.rmOk (normalizedFilePath c.audio_url) = false →
      stepCandidate env s d c = ⟨s, d, .rmFailSkip, false⟩) := by
  constructor
  · intro hrm hdl hins
    have hnc := not_dup_no_conflict s c hdup
    have hnm := removePath_not_mem (normalizedFilePath c.audio_url) d
    simp only [stepCandidate, hdup, Bool.false_eq_true, if_false, hmem, if_true, hrm,
      downloadAndInsert, download_audio, hnm, hdl, insert_sermon, mkRecord, hins]
    simp [mkRecord] at hnc
    have hne : ¬ ∃ x ∈ s,
        x.audio_url = c.audio_url ∨ x.file_path = normalizedFilePath c.audio_url := by
      rintro ⟨x, hx, h | h⟩
      · exact (hnc x hx).1 h
      · exact (hnc x hx).2 h
    simp [hne]
  · intro hrm
    simp [stepCandidate, hdup, hmem, hrm]

/-- Witness for C6 at a concrete non-duplicate candidate whose derived
path is on disk. -/
theorem c6_witness :
    stepCandidate envW [] ["/data/audiofiles/new.mp3"] candTitleClash =
      ⟨[mkRecord envW candTitleClash "/data/audiofiles/new.mp3"],
       ["/data/audiofiles/new.mp3"], .inserted, true⟩ := by
  have h := (c6_drift_reconciliation envW [] ["/data/audiofiles/new.mp3"]
    candTitleClash (by decide) (by decide)).1 rfl rfl rfl
  simpa using h

/-! ## C7 — failure outcomes of the streaming download -/

/-- C7 counterexample: a 200 response whose chunk stream raises after
delivering one chunk makes `fetch_to_path` return the `DownloadFailed`
outcome, yet a (partial) file is left at the destination path even
though none existed there before the call. -/
theorem c7_counterexample :
    (fetch_to_path [] "http://x/a.mp3" (.resp 200 ["AB"] false)).1 = none ∧
    (fetch_to_path [] "http://x/a.mp3" (.resp 200 ["AB"] false)).2.any
      (fun e => e.1 == normalizedFilePath "http://x/a.mp3") = true ∧
    ([] : FileSys).any
      (fun e => e.1 == normalizedFilePath "http://x/a.mp3") = false := by
  decide

/-- C7 amended: a failed `requests.get` or a non-200 status yields
`DownloadFailed` with the filesystem untouched, but a transport error
during the chunk stream of a 200 response yields `DownloadFailed`
while leaving the partially written file at the destination; only a
complete stream produces the success outcome. -/
theorem c7_amended (fs : FileSys) (url : String) (status : Nat)
    (chunks : List String)
    (habsent : fs.any (fun e => e.1 == normalizedFilePath url) = false) :
    (fetch_to_path fs url .netError = (none, fs)) ∧
    (status ≠ 200 →
      (∀ complete : Bool,
        fetch_to_path fs url (.resp status chunks complete) = (none, fs))) ∧
    (fetch_to_path fs url (.resp 200 chunks false) =
      (none, (normalizedFilePath url, joinChunks chunks) :: fs)) ∧
    (fetch_to_path fs url (.resp 200 chunks true) =
      (some (normalizedFilePath url),
        (normalizedFilePath url, joinChunks chunks) :: fs)) := by
  refine ⟨?_, fun hst complete => ?_, ?_, ?_⟩ <;>
    simp_all [fetch_to_path] <;>
    exact fun x hx => habsent _ x hx rfl

/-- Witness for C7's amended statement at a concrete empty filesystem
and URL. -/
theorem c7_witness :
    fetch_to_path [] "http://x/b.mp3" (.resp 200 ["CD"] false) =
      (none, [("/data/audiofiles/b.mp3", "CD")]) := by
  have h := (c7_amended [] "http://x/b.mp3" 200 ["CD"] (by decide)).2.2.1
  simpa using h

/-! ## C9 — API error surface -/

/-- C9 counterexample: the 500 response of `get_sermons` carries the
internal exception text itself as the error body (`str(e)`), so the
body is not a generic message independent of the internal detail. -/
theorem c9_counterexample :
    get_sermons "k" (some ⟨"u", "k"⟩) (some "2025-01-15") [] (some "boom")
        "http://h/" = ⟨500, .errorMsg "boom"⟩ ∧
    get_sermons "k" (some ⟨"u", "k"⟩) (some "2025-01-15") []
        (some "database is locked") "http://h/" =
      ⟨500, .errorMsg "database is locked"⟩ := by
  decide

/-- C9 amended: every request receives a well-formed response — an
absent or password-mismatched credential yields 401; a missing date, an
empty date, or an (ASCII) date parameter `strptime` rejects yields 400;
and an internal store failure yields a 500 response whose error body is
the exception's own message (`str(e)`), for both endpoints. -/
theorem c9_amended :
    (∀ (k : String) (auth : Option AuthCred) (dp : Option String)
        (s : Store) (dbErr : Option String) (host : String),
      require_api_key k auth = false →
      get_sermons k auth dp s dbErr host =
        ⟨401, .errorMsg "Unauthorized: Invalid API key."⟩) ∧
    (∀ (k : String) (auth : Option AuthCred) (s : Store)
        (dbErr : Option String) (sid : String),
      require_api_key k auth = false →
      download_sermon_audio k auth s dbErr sid =
        ⟨401, .errorMsg "Unauthorized: Invalid API key."⟩) ∧
    (∀ (k : String) (auth : Option AuthCred) (s : Store)
        (dbErr : Option String) (host : String),
      require_api_key k auth = true →
      get_sermons k auth none s dbErr host =
        ⟨400, .errorMsg "Missing date parameter. Expected format: YYYY-MM-DD"⟩ ∧
      get_sermons k auth (some "") s dbErr host =
        ⟨400, .errorMsg "Missing date parameter. Expected format: YYYY-MM-DD"⟩) ∧
    (∀ (k : String) (auth : Option AuthCred) (dp : String) (s : Store)
        (dbErr : Option String) (host : String),
      require_api_key k auth = true → dp ≠ "" →
      dp.data.all (fun ch => ch.toNat < 128) = true →
      strptimeYMD (pyStrip dp) = none →
      get_sermons k auth (some dp) s dbErr host =
        ⟨400, .errorMsg "Invalid date format. Expected format: YYYY-MM-DD"⟩) ∧
    (∀ (k : String) (auth : Option AuthCred) (dp : String) (pd : PyDate)
        (s : Store) (msg : String) (host : String),
      require_api_key k auth = true → dp ≠ "" →
      strptimeYMD (pyStrip dp) = some pd →
      get_sermons k auth (some dp) s (some msg) host = ⟨500, .errorMsg msg⟩) ∧
    (∀ (k : String) (auth : Option AuthCred) (s : Store) (msg : String)
        (sid : String),
      require_api_key k auth = true →
      download_sermon_audio k auth s (some msg) sid = ⟨500, .errorMsg msg⟩) := by
  refine ⟨fun k auth dp s dbErr host h => ?_, fun k auth s dbErr sid h => ?_,
    fun k auth s dbErr host h => ?_, fun k auth dp s dbErr host h hne _ hv => ?_,
    fun k auth dp pd s msg host h hne hv => ?_, fun k auth s msg sid h => ?_⟩ <;>
    simp [get_sermons, download_sermon_audio, h]
  · simp [hne, hv]
  · simp [hne, hv]

/-- Witness for C9's amended statement: a concrete unauthorized request
is answered with 401. -/
theorem c9_witness :
    get_sermons "k" none (some "2025-01-15") [] none "http://h/" =
      ⟨401, .errorMsg "Unauthorized: Invalid API key."⟩ :=
  c9_amended.1 "k" none (some "2025-01-15") [] none "http://h/" rfl

/-! ## C2 — uniqueness of `audio_url` and `file_path` -/

/-- No two rows of the table share `audio_url` or `file_path`. -/
def UniqueKeys (s : Store) : Prop :=
  s.Pairwise (fun a b => a.audio_url ≠ b.audio_url ∧ a.file_path ≠ b.file_path)

theorem insert_sermon_uniqueKeys {s : Store} {r : SermonRecord} {err : Bool}
    (h : UniqueKeys s) : UniqueKeys (insert_sermon s r err).1 := by
  unfold insert_sermon
  by_cases hc :
      s.any (fun q => q.audio_url == r.audio_url || q.file_path == r.file_path) = true
  · simp [hc, h]
  · rw [Bool.not_eq_true, List.any_eq_false] at hc
    by_cases he : err = true
    · simp [he]
      split <;> simpa [UniqueKeys] using h
    · simp at he
      have : UniqueKeys (s ++ [r]) := by
        rw [UniqueKeys, List.pairwise_append]
        refine ⟨h, List.pairwise_singleton _ _, fun a ha b hb => ?_⟩
        rw [List.mem_singleton] at hb
        subst hb
        have := hc a ha
        simp only [Bool.or_eq_true, beq_iff_eq, not_or] at this
        exact this
      simp [he]
      split
      · simpa [UniqueKeys] using h
      · exact this

theorem downloadAndInsert_uniqueKeys {env : Env} {s : Store} {d : Disk}
    {c : Candidate} (h : UniqueKeys s) :
    UniqueKeys (downloadAndInsert env s d c).store := by
  unfold downloadAndInsert
  rcases hda : download_audio env d c with ⟨res, d2, t⟩
  cases res with
  | none => simp only [hda]; exact h
  | some path =>
    simp only [hda]
    rcases hins : insert_sermon s (mkRecord env c path) (env.insertErr c) with ⟨s2, e⟩
    simp only [hins]
    have hiu := @insert_sermon_uniqueKeys s (mkRecord env c path)
      (env.insertErr c) h
    rw [hins] at hiu
    exact hiu

theorem stepCandidate_uniqueKeys {env : Env} {s : Store} {d : Disk}
    {c : Candidate} (h : UniqueKeys s) :
    UniqueKeys (stepCandidate env s d c).store := by
  unfold stepCandidate
  split
  · exact h
  · split
    · split
      · exact downloadAndInsert_uniqueKeys h
      · exact h
    · exact downloadAndInsert_uniqueKeys h

theorem processList_uniqueKeys {env : Env} {cs : List Candidate} {s : Store}
    {d : Disk} (h : UniqueKeys s) :
    UniqueKeys (processList env cs s d).store := by
  induction cs generalizing s d with
  | nil => exact h
  | cons c cs ih => exact ih (stepCandidate_uniqueKeys h)

/-! ### Structural lemmas about the pass -/

theorem processList_cons_store (env : Env) (c : Candidate) (cs : List Candidate)
    (s : Store) (d : Disk) :
    (processList env (c :: cs) s d).store =
      (processList env cs (stepCandidate env s d c).store
        (stepCandidate env s d c).disk).store := rfl

theorem processList_cons_disk (env : Env) (c : Candidate) (cs : List Candidate)
    (s : Store) (d : Disk) :
    (processList env (c :: cs) s d).disk =
      (processList env cs (stepCandidate env s d c).store
        (stepCandidate env s d c).disk).disk := rfl

theorem processList_append (env : Env) (xs ys : List Candidate) (s : Store)
    (d : Disk) :
    (processList env (xs ++ ys) s d).store =
      (processList env ys (processList env xs s d).store
        (processList env xs s d).disk).store ∧
    (processList env (xs ++ ys) s d).disk =
      (processList env ys (processList env xs s d).store
        (processList env xs s d).disk).disk := by
  induction xs generalizing s d with
  | nil => exact ⟨rfl, rfl⟩
  | cons c cs ih =>
    rw [List.cons_append, processList_cons_store, processList_cons_disk,
      processList_cons_store, processList_cons_disk]
    exact ih (stepCandidate env s d c).store (stepCandidate env s d c).disk

theorem stepCandidate_of_notdup_mem_rmok {env : Env} {s : Store} {d : Disk}
    {c : Candidate} (hdup : dup_check s c = false)
    (hmem : normalizedFilePath c.audio_url ∈ d)
    (hrm : env.rmOk (normalizedFilePath c.audio_url) = true) :
    stepCandidate env s d c =
      downloadAndInsert env s (removePath (normalizedFilePath c.audio_url) d) c := by
  simp [stepCandidate, hdup, hmem, hrm]

theorem stepCandidate_of_notdup_mem_rmfail {env : Env} {s : Store} {d : Disk}
    {c : Candidate} (hdup : dup_check s c = false)
    (hmem : normalizedFilePath c.audio_url ∈ d)
    (hrm : env.rmOk (normalizedFilePath c.audio_url) = false) :
    stepCandidate env s d c = ⟨s, d, .rmFailSkip, false⟩ := by
  simp [stepCandidate, hdup, hmem, hrm]

theorem stepCandidate_of_notdup_notmem {env : Env} {s : Store} {d : Disk}
    {c : Candidate} (hdup : dup_check s c = false)
    (hmem : normalizedFilePath c.audio_url ∉ d) :
    stepCandidate env s d c = downloadAndInsert env s d c := by
  simp [stepCandidate, hdup, hmem]

theorem downloadAndInsert_failClean {env : Env} {s : Store} {d : Disk}
    {c : Candidate} (hp : normalizedFilePath c.audio_url ∉ d)
    (h : env.download c = .failClean) :
    downloadAndInsert env s d c = ⟨s, d, .downloadFailSkip, true⟩ := by
  unfold downloadAndInsert download_audio
  simp [hp, h]

theorem downloadAndInsert_failMidStream {env : Env} {s : Store} {d : Disk}
    {c : Candidate} (hp : normalizedFilePath c.audio_url ∉ d)
    (h : env.download c = .failMidStream) :
    downloadAndInsert env s d c =
      ⟨s, normalizedFilePath c.audio_url :: d, .downloadFailSkip, true⟩ := by
  unfold downloadAndInsert download_audio
  simp [hp, h]

theorem downloadAndInsert_success {env : Env} {s : Store} {d : Disk}
    {c : Candidate} (hp : normalizedFilePath c.audio_url ∉ d)
    (h : env.download c = .success) :
    downloadAndInsert env s d c =
      ⟨(insert_sermon s (mkRecord env c (normalizedFilePath c.audio_url))
          (env.insertErr c)).1,
       normalizedFilePath c.audio_url :: d,
       (insert_sermon s (mkRecord env c (normalizedFilePath c.audio_url))
          (env.insertErr c)).2, true⟩ := by
  unfold downloadAndInsert download_audio
  simp [hp, h]

theorem stepCandidate_fail_store {env : Env} {s : Store} {d : Disk}
    {c : Candidate} (h : env.download c ≠ .success) :
    (stepCandidate env s d c).store = s := by
  by_cases hdup : dup_check s c = true
  · rw [stepCandidate_of_dup hdup]
  · rw [Bool.not_eq_true] at hdup
    rcases hdl : env.download c with _ | _ | _
    · exact absurd hdl h
    · by_cases hmem : normalizedFilePath c.audio_url ∈ d
      · by_cases hrm : env.rmOk (normalizedFilePath c.audio_url) = true
        · rw [stepCandidate_of_notdup_mem_rmok hdup hmem hrm,
            downloadAndInsert_failClean (removePath_not_mem _ _) hdl]
        · rw [Bool.not_eq_true] at hrm
          rw [stepCandidate_of_notdup_mem_rmfail hdup hmem hrm]
      · rw [stepCandidate_of_notdup_notmem hdup hmem,
          downloadAndInsert_failClean hmem hdl]
    · by_cases hmem : normalizedFilePath c.audio_url ∈ d
      · by_cases hrm : env.rmOk (normalizedFilePath c.audio_url) = true
        · rw [stepCandidate_of_notdup_mem_rmok hdup hmem hrm,
            downloadAndInsert_failMidStream (removePath_not_mem _ _) hdl]
        · rw [Bool.not_eq_true] at hrm
          rw [stepCandidate_of_notdup_mem_rmfail hdup hmem hrm]
      · rw [stepCandidate_of_notdup_notmem hdup hmem,
          downloadAndInsert_failMidStream hmem hdl]

theorem removePath_cons_ne {q p : String} (hqp : q ≠ p) (d : Disk) :
    removePath p (q :: d) = q :: removePath p d := by
  simp [removePath, hqp]

theorem removePath_comm (p q : String) (d : Disk) :
    removePath p (removePath q d) = removePath q (removePath p d) := by
  unfold removePath
  rw [List.filter_filter, List.filter_filter]
  exact List.filter_congr (fun a _ => by rw [Bool.and_comm])

/-- Deleting from disk a file whose deletion the environment answers
positively does not change the store a pass computes: any candidate
deriving that path would have deleted it itself before downloading. -/
theorem processList_store_removePath {env : Env} {p : String}
    (hrm : env.rmOk p = true) :
    ∀ (cs : List Candidate) (s : Store) (d : Disk),
      (processList env cs s (removePath p d)).store =
        (processList env cs s d).store := by
  intro cs
  induction cs with
  | nil => intro s d; rfl
  | cons c cs ih =>
    intro s d
    rw [processList_cons_store, processList_cons_store]
    by_cases hdup : dup_check s c = true
    · rw [stepCandidate_of_dup hdup, stepCandidate_of_dup hdup]
      exact ih s d
    · rw [Bool.not_eq_true] at hdup
      have key : ∀ (s' : Store) (d' : Disk),
          normalizedFilePath c.audio_url ∉ d' →
          (processList env cs
            (downloadAndInsert env s' (removePath p d') c).store
            (downloadAndInsert env s' (removePath p d') c).disk).store =
          (processList env cs
            (downloadAndInsert env s' d' c).store
            (downloadAndInsert env s' d' c).disk).store := by
        intro s' d' hq
        by_cases hqp : normalizedFilePath c.audio_url = p
        · rw [hqp] at hq
          rw [removePath_of_not_mem hq]
        · have hq2 : normalizedFilePath c.audio_url ∉ removePath p d' :=
            fun hmem => hq (mem_removePath.mp hmem).1
          rcases hdl : env.download c with _ | _ | _
          · rw [downloadAndInsert_success hq2 hdl, downloadAndInsert_success hq hdl]
            simp only
            rw [← removePath_cons_ne hqp d']
            exact ih _ _
          · rw [downloadAndInsert_failClean hq2 hdl, downloadAndInsert_failClean hq hdl]
            exact ih s' d'
          · rw [downloadAndInsert_failMidStream hq2 hdl,
              downloadAndInsert_failMidStream hq hdl]
            simp only
            rw [← removePath_cons_ne hqp d']
            exact ih _ _
      by_cases hqp : normalizedFilePath c.audio_url = p
      · by_cases hpd : normalizedFilePath c.audio_url ∈ d
        · have hl := @stepCandidate_of_notdup_notmem env s (removePath p d) c hdup
            (hqp ▸ removePath_not_mem p d)
          have hr := @stepCandidate_of_notdup_mem_rmok env s d c hdup hpd
            (hqp ▸ hrm)
          rw [hqp] at hr
          rw [hl, hr]
        · rw [hqp] at hpd
          rw [removePath_of_not_mem hpd]
      · by_cases hqd : normalizedFilePath c.audio_url ∈ d
        · have hqrd : normalizedFilePath c.audio_url ∈ removePath p d :=
            mem_removePath.mpr ⟨hqd, hqp⟩
          by_cases hrq : env.rmOk (normalizedFilePath c.audio_url) = true
          · rw [stepCandidate_of_notdup_mem_rmok hdup hqrd hrq,
              stepCandidate_of_notdup_mem_rmok hdup hqd hrq,
              removePath_comm]
            exact key s (removePath (normalizedFilePath c.audio_url) d)
              (removePath_not_mem _ _)
          · rw [Bool.not_eq_true] at hrq
            rw [stepCandidate_of_notdup_mem_rmfail hdup hqrd hrq,
              stepCandidate_of_notdup_mem_rmfail hdup hqd hrq]
            exact ih s d
        · have hqrd : normalizedFilePath c.audio_url ∉ removePath p d :=
            fun hmem => hqd (mem_removePath.mp hmem).1
          rw [stepCandidate_of_notdup_notmem hdup hqrd,
            stepCandidate_of_notdup_notmem hdup hqd]
          exact key s d hqd

/-! ## C4 — download failure isolates the candidate -/

def candE1 : Candidate := ⟨"Sermon E1", "http://x/e1.mp3", "Faith"⟩
def candE2 : Candidate := ⟨"Sermon E2", "http://x/e2.mp3", "Hope"⟩
def candE3 : Candidate := ⟨"Sermon E3", "http://x/e3.mp3", "Love"⟩

/-- Environment in which exactly `candE2`'s transfer fails. -/
def envFail2 : Env :=
  { envW with download := fun c => if c = candE2 then .failClean else .success }

/-- C4: a candidate whose download fails contributes no metadata row
(the store is exactly as if the candidate were absent), the remaining
candidates are still processed; concretely, with candidate 2 of 3
failing on an empty store, exactly the records of candidates 1 and 3
are inserted. -/
theorem c4_isolate_and_continue :
    (∀ (env : Env) (s : Store) (d : Disk) (c : Candidate),
      env.download c ≠ .success → (stepCandidate env s d c).store = s) ∧
    (∀ (env : Env) (pre post : List Candidate) (c : Candidate) (s : Store)
        (d : Disk),
      env.download c = .failClean →
      (processList env (pre ++ c :: post) s d).store =
        (processList env (pre ++ post) s d).store) ∧
    ((processList envFail2 [candE1, candE2, candE3] [] []).store =
      [mkRecord envFail2 candE1 "/data/audiofiles/e1.mp3",
       mkRecord envFail2 candE3 "/data/audiofiles/e3.mp3"]) := by
  refine ⟨fun env s d c h => stepCandidate_fail_store h,
    fun env pre post c s d hfail => ?_, by decide⟩
  rw [(processList_append env pre (c :: post) s d).1,
    (processList_append env pre post s d).1, processList_cons_store]
  generalize (processList env pre s d).store = s1
  generalize (processList env pre s d).disk = d1
  by_cases hdup : dup_check s1 c = true
  · rw [stepCandidate_of_dup hdup]
  · rw [Bool.not_eq_true] at hdup
    by_cases hmem : normalizedFilePath c.audio_url ∈ d1
    · by_cases hrm : env.rmOk (normalizedFilePath c.audio_url) = true
      · rw [stepCandidate_of_notdup_mem_rmok hdup hmem hrm,
          downloadAndInsert_failClean (removePath_not_mem _ _) hfail]
        exact processList_store_removePath hrm post s1 d1
      · rw [Bool.not_eq_true] at hrm
        rw [stepCandidate_of_notdup_mem_rmfail hdup hmem hrm]
    · rw [stepCandidate_of_notdup_notmem hdup hmem,
        downloadAndInsert_failClean hmem hfail]

/-- Witness for C4 at the concrete three-candidate pass. -/
theorem c4_witness :
    (processList envFail2 ([candE1] ++ candE2 :: [candE3]) [] []).store =
      (processList envFail2 ([candE1] ++ [candE3]) [] []).store :=
  c4_isolate_and_continue.2.1 envFail2 [candE1] [candE3] candE2 [] [] (by decide)

/-! ## C3 — idempotence of a pass -/

theorem insert_sermon_store_append (s : Store) (r : SermonRecord) (err : Bool) :
    (insert_sermon s r err).1 = s ∨ (insert_sermon s r err).1 = s ++ [r] := by
  unfold insert_sermon
  split
  · exact Or.inl rfl
  · split
    · exact Or.inl rfl
    · exact Or.inr rfl

theorem stepCandidate_store_append (env : Env) (s : Store) (d : Disk)
    (c : Candidate) : ∃ t, (stepCandidate env s d c).store = s ++ t := by
  have hda : ∀ d', ∃ t, (downloadAndInsert env s d' c).store = s ++ t := by
    intro d'
    unfold downloadAndInsert
    rcases hdl : download_audio env d' c with ⟨res, d2, tr⟩
    cases res with
    | none => exact ⟨[], by simp [hdl]⟩
    | some path =>
      rcases insert_sermon_store_append s (mkRecord env c path) (env.insertErr c)
        with h | h
      · refine ⟨[], ?_⟩
        rcases hins : insert_sermon s (mkRecord env c path) (env.insertErr c)
          with ⟨s2, e⟩
        rw [hins] at h
        simp [hdl, hins, h]
      · refine ⟨[mkRecord env c path], ?_⟩
        rcases hins : insert_sermon s (mkRecord env c path) (env.insertErr c)
          with ⟨s2, e⟩
        rw [hins] at h
        simp [hdl, hins, h]
  unfold stepCandidate
  split
  · exact ⟨[], by simp⟩
  · split
    · split
      · exact hda _
      · exact ⟨[], by simp⟩
    · exact hda _

theorem processList_store_append (env : Env) (cs : List Candidate) (s : Store)
    (d : Disk) : ∃ t, (processList env cs s d).store = s ++ t := by
  induction cs generalizing s d with
  | nil => exact ⟨[], by simp [processList]⟩
  | cons c cs ih =>
    rw [processList_cons_store]
    obtain ⟨t1, h1⟩ := stepCandidate_store_append env s d c
    obtain ⟨t2, h2⟩ := ih (stepCandidate env s d c).store (stepCandidate env s d c).disk
    exact ⟨t1 ++ t2, by rw [h2, h1, List.append_assoc]⟩

theorem dup_check_mono {s : Store} {c : Candidate} (t : Store)
    (h : dup_check s c = true) : dup_check (s ++ t) c = true := by
  rw [dup_check_iff] at h ⊢
  rcases h with ⟨r, hr, h⟩ | ⟨r, hr, h⟩ | ⟨r, hr, h⟩
  · exact Or.inl ⟨r, List.mem_append_left t hr, h⟩
  · exact Or.inr (Or.inl ⟨r, List.mem_append_left t hr, h⟩)
  · exact Or.inr (Or.inr ⟨r, List.mem_append_left t hr, h⟩)

theorem downloadAndInsert_disk (env : Env) (s : Store) (d : Disk)
    (c : Candidate) :
    (downloadAndInsert env s d c).disk = d ∨
    (downloadAndInsert env s d c).disk = normalizedFilePath c.audio_url :: d := by
  unfold downloadAndInsert download_audio
  by_cases hp : normalizedFilePath c.audio_url ∈ d
  · simp [hp]
  · rcases hdl : env.download c with _ | _ | _ <;>
      simp [hp, hdl]

theorem stepCandidate_disk_keep {env : Env} {p : String} {s : Store} {d : Disk}
    {c : Candidate} (hp : p ∈ d) (hrm : env.rmOk p = false) :
    p ∈ (stepCandidate env s d c).disk := by
  have hne : ∀ q, env.rmOk q = true → p ≠ q := by
    intro q hq hpq
    rw [hpq, hq] at hrm
    cases hrm
  have hda : ∀ d', p ∈ d' → p ∈ (downloadAndInsert env s d' c).disk := by
    intro d' hp'
    rcases downloadAndInsert_disk env s d' c with h | h <;> rw [h]
    · exact hp'
    · exact List.mem_cons_of_mem _ hp'
  unfold stepCandidate
  split
  · exact hp
  · split
    · split
      · rename_i hmem hrmq
        exact hda _ (mem_removePath.mpr ⟨hp, hne _ hrmq⟩)
      · exact hp
    · exact hda _ hp

theorem processList_disk_keep {env : Env} {p : String} {cs : List Candidate}
    {s : Store} {d : Disk} (hp : p ∈ d) (hrm : env.rmOk p = false) :
    p ∈ (processList env cs s d).disk := by
  induction cs generalizing s d with
  | nil => exact hp
  | cons c cs ih =>
    rw [processList_cons_disk]
    exact ih (stepCandidate_disk_keep hp hrm)

/-- A candidate is inert for a state when the pass would skip it there:
it is a duplicate, or its derived file sits on disk and its deletion
fails. -/
def inert (env : Env) (c : Candidate) (s : Store) (d : Disk) : Prop :=
  dup_check s c = true ∨
    (normalizedFilePath c.audio_url ∈ d ∧
      env.rmOk (normalizedFilePath c.audio_url) = false)

theorem stepCandidate_of_inert {env : Env} {c : Candidate} {s : Store}
    {d : Disk} (h : inert env c s d) :
    stepCandidate env s d c = ⟨s, d, .dupSkip, false⟩ ∨
    stepCandidate env s d c = ⟨s, d, .rmFailSkip, false⟩ := by
  rcases h with h | ⟨hmem, hrm⟩
  · exact Or.inl (stepCandidate_of_dup h)
  · by_cases hdup : dup_check s c = true
    · exact Or.inl (stepCandidate_of_dup hdup)
    · rw [Bool.not_eq_true] at hdup
      exact Or.inr (stepCandidate_of_notdup_mem_rmfail hdup hmem hrm)

theorem inert_processList {env : Env} {c : Candidate} {s : Store} {d : Disk}
    (cs : List Candidate) (h : inert env c s d) :
    inert env c (processList env cs s d).store (processList env cs s d).disk := by
  rcases h with h | ⟨hmem, hrm⟩
  · obtain ⟨t, ht⟩ := processList_store_append env cs s d
    exact Or.inl (ht ▸ dup_check_mono t h)
  · exact Or.inr ⟨processList_disk_keep hmem hrm, hrm⟩

theorem stepCandidate_makes_inert {env : Env} {c : Candidate} {s : Store}
    {d : Disk} (hdl : env.download c = .success)
    (hins : env.insertErr c = false) :
    inert env c (stepCandidate env s d c).store (stepCandidate env s d c).disk := by
  by_cases hdup : dup_check s c = true
  · rw [stepCandidate_of_dup hdup]
    exact Or.inl hdup
  · rw [Bool.not_eq_true] at hdup
    have hda : ∀ d', normalizedFilePath c.audio_url ∉ d' →
        inert env c (downloadAndInsert env s d' c).store
          (downloadAndInsert env s d' c).disk := by
      intro d' hp
      rw [downloadAndInsert_success hp hdl]
      have hnc := not_dup_no_conflict s c hdup
      have hins_eq : insert_sermon s
          (mkRecord env c (normalizedFilePath c.audio_url)) (env.insertErr c) =
          (s ++ [mkRecord env c (normalizedFilePath c.audio_url)], .inserted) := by
        unfold insert_sermon
        rw [hins]
        simp only [mkRecord] at hnc ⊢
        rw [hnc]
        simp
      rw [hins_eq]
      exact Or.inl ((dup_check_iff _ c).mpr
        (Or.inl ⟨mkRecord env c (normalizedFilePath c.audio_url),
          List.mem_append_right s (List.mem_singleton_self _), rfl⟩))
    by_cases hmem : normalizedFilePath c.audio_url ∈ d
    · by_cases hrm : env.rmOk (normalizedFilePath c.audio_url) = true
      · rw [stepCandidate_of_notdup_mem_rmok hdup hmem hrm]
        exact hda _ (removePath_not_mem _ _)
      · rw [Bool.not_eq_true] at hrm
        rw [stepCandidate_of_notdup_mem_rmfail hdup hmem hrm]
        exact Or.inr ⟨hmem, hrm⟩
    · rw [stepCandidate_of_notdup_notmem hdup hmem]
      exact hda _ hmem

theorem processList_all_inert {env : Env}
    (hdl : ∀ c, env.download c = .success)
    (hins : ∀ c, env.insertErr c = false) :
    ∀ (cs : List Candidate) (s : Store) (d : Disk), ∀ c ∈ cs,
      inert env c (processList env cs s d).store (processList env cs s d).disk := by
  intro cs
  induction cs with
  | nil => intro s d c hc; cases hc
  | cons c' cs ih =>
    intro s d c hc
    rw [processList_cons_store, processList_cons_disk]
    rcases List.mem_cons.mp hc with rfl | hc
    · exact inert_processList cs (stepCandidate_makes_inert (hdl c) (hins c))
    · exact ih _ _ c hc

theorem processList_of_all_inert {env : Env} {cs : List Candidate} {s : Store}
    {d : Disk} (h : ∀ c ∈ cs, inert env c s d) :
    (processList env cs s d).store = s ∧ (processList env cs s d).disk = d ∧
    (processList env cs s d).transfers = 0 ∧
    (processList env cs s d).events.all
      (fun e => e == .dupSkip || e == .rmFailSkip) = true := by
  induction cs with
  | nil => exact ⟨rfl, rfl, rfl, rfl⟩
  | cons c cs ih =>
    have hstep := stepCandidate_of_inert (h c (List.mem_cons_self c cs))
    have hrest := ih (fun c' hc' => h c' (List.mem_cons_of_mem c hc'))
    rcases hstep with hs | hs <;>
    · rw [processList_cons_store, processList_cons_disk, hs]
      refine ⟨hrest.1, hrest.2.1, ?_, ?_⟩
      · show (processList env (c :: cs) s d).transfers = 0
        rw [show (processList env (c :: cs) s d).transfers =
          (if (stepCandidate env s d c).transfer then 1 else 0) +
            (processList env cs (stepCandidate env s d c).store
              (stepCandidate env s d c).disk).transfers from rfl, hs]
        simpa using hrest.2.2.1
      · show (processList env (c :: cs) s d).events.all _ = true
        rw [show (processList env (c :: cs) s d).events =
          (stepCandidate env s d c).event ::
            (processList env cs (stepCandidate env s d c).store
              (stepCandidate env s d c).disk).events from rfl, hs]
        simpa using hrest.2.2.2

/-- C3: with every transfer and insert succeeding, a second pass over
the same candidate list leaves the store and disk exactly as the first
pass left them, performs no transfer, and every candidate is skipped
(as a duplicate or by a failing delete), so no row is inserted. -/
theorem c3_pass_idempotent (env : Env) (cs : List Candidate) (s : Store)
    (d : Disk) (hdl : ∀ c, env.download c = .success)
    (hins : ∀ c, env.insertErr c = false) :
    (processList env cs (processList env cs s d).store
        (processList env cs s d).disk).store = (processList env cs s d).store ∧
    (processList env cs (processList env cs s d).store
        (processList env cs s d).disk).disk = (processList env cs s d).disk ∧
    (processList env cs (processList env cs s d).store
        (processList env cs s d).disk).transfers = 0 ∧
    (processList env cs (processList env cs s d).store
        (processList env cs s d).disk).events.all
      (fun e => e == .dupSkip || e == .rmFailSkip) = true :=
  processList_of_all_inert (fun c hc => processList_all_inert hdl hins cs s d c hc)

/-- Witness for C3 at the concrete two-candidate feed of the spec's
end-to-end scenario. -/
theorem c3_witness :
    (processList envW [candE1, candE3]
        (processList envW [candE1, candE3] [] []).store
        (processList envW [candE1, candE3] [] []).disk).store =
      (processList envW [candE1, candE3] [] []).store ∧
    (processList envW [candE1, candE3]
        (processList envW [candE1, candE3] [] []).store
        (processList envW [candE1, candE3] [] []).disk).disk =
      (processList envW [candE1, candE3] [] []).disk ∧
    (processList envW [candE1, candE3]
        (processList envW [candE1, candE3] [] []).store
        (processList envW [candE1, candE3] [] []).disk).transfers = 0 ∧
    (processList envW [candE1, candE3]
        (processList envW [candE1, candE3] [] []).store
        (processList envW [candE1, candE3] [] []).disk).events.all
      (fun e => e == .dupSkip || e == .rmFailSkip) = true :=
  c3_pass_idempotent envW [candE1, candE3] [] []
    (fun _ => rfl) (fun _ => rfl)

/-! ## C8 — GET /sermons date filter and ordering -/

theorem charListLe_total (a b : List Char) :
    charListLe a b = true ∨ charListLe b a = true := by
  induction a generalizing b with
  | nil => exact Or.inl rfl
  | cons x xs ih =>
    cases b with
    | nil => exact Or.inr rfl
    | cons y ys =>
      by_cases h1 : x < y
      · exact Or.inl (by simp [charListLe, h1])
      · by_cases h2 : y < x
        · exact Or.inr (by simp [charListLe, h2])
        · rcases ih ys with h | h
          · exact Or.inl (by simp [charListLe, h1, h2, h])
          · exact Or.inr (by simp [charListLe, h1, h2, h])

theorem charListLe_trans {a b c : List Char} (h1 : charListLe a b = true)
    (h2 : charListLe b c = true) : charListLe a c = true := by
  induction a generalizing b c with
  | nil => rfl
  | cons x xs ih =>
    cases b with
    | nil => simp [charListLe] at h1
    | cons y ys =>
      cases c with
      | nil => simp [charListLe] at h2
      | cons z zs =>
        by_cases hyz : y < z
        · by_cases hxy : x < y
          · simp [charListLe, lt_trans hxy hyz]
          · by_cases hyx : y < x
            · simp [charListLe, hxy, hyx] at h1
            · have hxz : x < z :=
                lt_of_le_of_lt (le_antisymm (le_of_not_lt hyx) (le_of_not_lt hxy)).le hyz
              simp [charListLe, hxz]
        · by_cases hzy : z < y
          · simp [charListLe, hyz, hzy] at h2
          · have hyz' : y = z := le_antisymm (le_of_not_lt hzy) (le_of_not_lt hyz)
            subst hyz'
            by_cases hxy : x < y
            · simp [charListLe, hxy]
            · by_cases hyx : y < x
              · simp [charListLe, hxy, hyx] at h1
              · simp only [charListLe, if_neg hxy, if_neg hyx] at h1 ⊢
                simp only [charListLe, if_neg hyz, if_neg hzy] at h2
                exact ih h1 h2

theorem strLe_total (x y : String) : strLe x y = true ∨ strLe y x = true :=
  charListLe_total x.data y.data

theorem strLe_trans {x y z : String} (h1 : strLe x y = true)
    (h2 : strLe y z = true) : strLe x z = true :=
  charListLe_trans h1 h2

/-- Descending order on records by `fetched_date`. -/
def dateGe (a b : SermonRecord) : Prop :=
  strLe b.fetched_date a.fetched_date = true

theorem insertByDateDesc_perm (r : SermonRecord) (l : List SermonRecord) :
    (insertByDateDesc r l).Perm (r :: l) := by
  induction l with
  | nil => exact List.Perm.refl _
  | cons x xs ih =>
    unfold insertByDateDesc
    split
    · exact List.Perm.refl _
    · exact (ih.cons x).trans (List.Perm.swap r x xs)

theorem insertByDateDesc_sorted (r : SermonRecord) {l : List SermonRecord}
    (h : l.Pairwise dateGe) : (insertByDateDesc r l).Pairwise dateGe := by
  induction l with
  | nil => simp [insertByDateDesc, dateGe]
  | cons x xs ih =>
    rw [List.pairwise_cons] at h
    obtain ⟨hx, hxs⟩ := h
    unfold insertByDateDesc
    split
    · rename_i hle
      rw [List.pairwise_cons]
      refine ⟨?_, List.pairwise_cons.mpr ⟨hx, hxs⟩⟩
      intro b hb
      rcases List.mem_cons.mp hb with rfl | hb
      · exact hle
      · exact strLe_trans (hx b hb) hle
    · rename_i hnle
      rw [List.pairwise_cons]
      refine ⟨?_, ih hxs⟩
      intro b hb
      rcases List.mem_cons.mp ((insertByDateDesc_perm r xs).mem_iff.mp hb)
        with rfl | hb'
      · rcases strLe_total x.fetched_date b.fetched_date with h | h
        · exact absurd h (by simpa using hnle)
        · exact h
      · exact hx b hb'

theorem orderByDateDesc_perm (l : List SermonRecord) :
    (orderByDateDesc l).Perm l := by
  induction l with
  | nil => exact List.Perm.refl _
  | cons x xs ih => exact (insertByDateDesc_perm x _).trans (ih.cons x)

theorem orderByDateDesc_sorted (l : List SermonRecord) :
    (orderByDateDesc l).Pairwise dateGe := by
  induction l with
  | nil => exact List.Pairwise.nil
  | cons x xs ih => exact insertByDateDesc_sorted x ih

def recJan : SermonRecord :=
  { id := "u1", title := "T1", audio_url := "http://x/1.mp3",
    file_path := "/data/audiofiles/1.mp3", categories := "F",
    fetched_date := "2025-01-01 09:00:00" }

def recFeb : SermonRecord :=
  { id := "u2", title := "T2", audio_url := "http://x/2.mp3",
    file_path := "/data/audiofiles/2.mp3", categories := "F",
    fetched_date := "2025-02-01 09:00:00" }

/-- C8: for an authorized request whose date parameter `strptime`
accepts, `/sermons` answers 200 with exactly the stored records whose
`fetched_date` is at least the parsed date rendered at midnight (as
SQLite compares the TEXT column), in descending `fetched_date` order,
each carrying a `download_url` that ends in "/download/" followed by
its id; and on the concrete Jan-1/Feb-1 store, a query for 2025-01-15
returns only the February record. -/
theorem c8_get_sermons_filter_sort (k : String) (auth : Option AuthCred)
    (dp : String) (pd : PyDate) (s : Store) (host : String)
    (hauth : require_api_key k auth = true)
    (hparse : strptimeYMD (pyStrip dp) = some pd) :
    (∃ recs : List SermonRecord,
      get_sermons k auth (some dp) s none host =
        ⟨200, .sermonList (recs.map (sermonOut host))⟩ ∧
      recs.Perm (s.filter
        (fun r => strLe (strftimeYMD pd ++ " 00:00:00") r.fetched_date)) ∧
      recs.Pairwise dateGe ∧
      (∀ o ∈ recs.map (sermonOut host),
        o.download_url = rstripSlash host ++ "/download/" ++ o.id)) ∧
    get_sermons "key" (some ⟨"user", "key"⟩) (some "2025-01-15")
        [recJan, recFeb] none "http://h:5060/" =
      ⟨200, .sermonList [sermonOut "http://h:5060/" recFeb]⟩ := by
  have hne : dp ≠ "" := by
    intro h
    rw [h] at hparse
    cases hparse
  refine ⟨⟨sqlSermonsSince s (strftimeYMD pd ++ " 00:00:00"), ?_, ?_, ?_, ?_⟩,
    by decide⟩
  · simp [get_sermons, hauth, hne, hparse]
  · exact orderByDateDesc_perm _
  · exact orderByDateDesc_sorted _
  · intro o ho
    obtain ⟨r, _, rfl⟩ := List.mem_map.mp ho
    rfl

/-- Witness for C8 at the concrete spec scenario. -/
theorem c8_witness :
    (∃ recs : List SermonRecord,
      get_sermons "key" (some ⟨"user", "key"⟩) (some "2025-01-15")
          [recJan, recFeb] none "http://h:5060/" =
        ⟨200, .sermonList (recs.map (sermonOut "http://h:5060/"))⟩ ∧
      recs.Perm ([recJan, recFeb].filter
        (fun r => strLe (strftimeYMD ⟨2025, 1, 15⟩ ++ " 00:00:00") r.fetched_date)) ∧
      recs.Pairwise dateGe ∧
      (∀ o ∈ recs.map (sermonOut "http://h:5060/"),
        o.download_url = rstripSlash "http://h:5060/" ++ "/download/" ++ o.id)) ∧
    get_sermons "key" (some ⟨"user", "key"⟩) (some "2025-01-15")
        [recJan, recFeb] none "http://h:5060/" =
      ⟨200, .sermonList [sermonOut "http://h:5060/" recFeb]⟩ :=
  c8_get_sermons_filter_sort "key" (some ⟨"user", "key"⟩) "2025-01-15"
    ⟨2025, 1, 15⟩ [recJan, recFeb] "http://h:5060/" (by decide) (by decide)

/-- A table reachable by running any sequence of ingestion passes from
the empty table created by `initialize_database`. -/
inductive ReachableStore : Store → Prop where
  | empty : ReachableStore []
  | pass (env : Env) (items : List FeedItem) (d : Disk) {s : Store} :
      ReachableStore s → ReachableStore (process_sermons env items s d).store

/-- C2: every reachable table state has pairwise-distinct `audio_url`
and pairwise-distinct `file_path`. -/
theorem c2_unique_keys_invariant (s : Store) (h : ReachableStore s) :
    s.Pairwise (fun a b => a.audio_url ≠ b.audio_url ∧ a.file_path ≠ b.file_path) := by
  induction h with
  | empty => exact List.Pairwise.nil
  | pass env items d _ ih => exact processList_uniqueKeys ih

/-- Witness for C2: the store produced by one concrete pass over a
two-item feed is reachable and satisfies the invariant. -/
theorem c2_witness :
    ((process_sermons envW
        [⟨some "Sermon A", some "http://x/a.mp3", [some "Faith"]⟩,
         ⟨some "Sermon B", some "http://x/b.mp3", []⟩] [] []).store).Pairwise
      (fun a b => a.audio_url ≠ b.audio_url ∧ a.file_path ≠ b.file_path) :=
  c2_unique_keys_invariant _
    (ReachableStore.pass envW
      [⟨some "Sermon A", some "http://x/a.mp3", [some "Faith"]⟩,
       ⟨some "Sermon B", some "http://x/b.mp3", []⟩] [] ReachableStore.empty)

end Sermon
